import Mathlib

/-!
Verification of the goCrawler repository: a shallow embedding of its URL
canonicalization functions, its storage sinks, and its concurrent crawl
engine (pending-job counter, job queue, seen set, worker loop), together
with theorems settling the spec claims about them.

String-level Go code is modelled on `List Char` with structural recursion so
that every definition is executable and kernel-reducible.
-/

namespace GoStr

/-- `listStarts l p` is `strings.HasPrefix` on character lists: `p` begins `l`. -/
def listStarts : List Char → List Char → Bool
  | _, [] => true
  | [], _ :: _ => false
  | a :: as, b :: bs => a == b && listStarts as bs

/-- Go `strings.HasPrefix s p`. -/
def strStarts (s p : String) : Bool := listStarts s.data p.data

/-- Go `strings.HasSuffix s p`. -/
def strEnds (s p : String) : Bool := listStarts s.data.reverse p.data.reverse

/-- Go `strings.Contains(s, c)` for a single character (`strings.Contains(path, ".")`). -/
def strHasChar (s : String) (c : Char) : Bool := s.data.any (· == c)

/-- Index of the first occurrence of `c`, Go `strings.IndexByte` (`none` for -1). -/
def firstIdxOf (l : List Char) (c : Char) : Option Nat :=
  l.findIdx? (· == c)

/-- Index of the last occurrence of `c`, Go `strings.LastIndexByte` (`none` for -1). -/
def lastIdxOf (l : List Char) (c : Char) : Option Nat :=
  match firstIdxOf l.reverse c with
  | none => none
  | some i => some (l.length - 1 - i)

/-- Go slice `s[:n]`. -/
def strTake (s : String) (n : Nat) : String := String.mk (s.data.take n)

/-- Go slice `s[n:]`. -/
def strDrop (s : String) (n : Nat) : String := String.mk (s.data.drop n)

/-- Split at the first occurrence of `c`: returns the part before and the part
after (empty when `c` is absent), like Go `split(s, c, true)` in net/url. -/
def cutFirst (s : String) (c : Char) : String × String :=
  match firstIdxOf s.data c with
  | none => (s, "")
  | some i => (String.mk (s.data.take i), String.mk (s.data.drop (i + 1)))

/-- Characters of `s` before its first `c` (the whole of `s` when absent). -/
def takeUntil (s : String) (p : Char → Bool) : String :=
  String.mk (s.data.takeWhile (fun a => !(p a)))

/-- Characters of `s` from its first `c` on (empty when absent). -/
def dropUntil (s : String) (p : Char → Bool) : String :=
  String.mk (s.data.dropWhile (fun a => !(p a)))

/-- Go `strings.ToLower` (ASCII is all the crawler needs). -/
def strToLower (s : String) : String := String.mk (s.data.map Char.toLower)

/-- Split on a separator character, Go `strings.Split(s, sep)` for one-char `sep`. -/
def splitChar (l : List Char) (c : Char) : List (List Char) :=
  match l with
  | [] => [[]]
  | a :: as =>
    let rest := splitChar as c
    if a == c then [] :: rest
    else match rest with
      | [] => [[a]]
      | r :: rs => (a :: r) :: rs

/-- Go `strings.Split` on strings for a one-char separator. -/
def strSplit (s : String) (c : Char) : List String :=
  (splitChar s.data c).map String.mk

/-- Go `strings.Join` with a one-char separator. -/
def strJoin (parts : List String) (sep : String) : String :=
  match parts with
  | [] => ""
  | p :: ps => ps.foldl (fun acc q => acc ++ sep ++ q) p

end GoStr

namespace GoURL

open GoStr

/-- The fields of Go `net/url.URL` that goCrawler reads or writes:
Scheme, Host (authority, possibly with port), Path, RawQuery, Fragment. -/
structure URLRec where
  scheme : String
  host : String
  path : String
  rawQuery : String
  fragment : String
deriving DecidableEq, Repr

/-- Go `validOptionalPort`: empty, or a colon followed by digits only. -/
def validOptionalPort (p : String) : Bool :=
  match p.data with
  | [] => true
  | c :: rest => c == ':' && rest.all (fun b => '0' ≤ b && b ≤ '9')

/-- Go `splitHostPort` (net/url): split the port off at the last colon when it
is a valid optional port, then strip square brackets from the host. -/
def splitHostPort (hostPort : String) : String × String :=
  let cl := hostPort.data
  let hp : String × String :=
    match lastIdxOf cl ':' with
    | some i =>
      if validOptionalPort (String.mk (cl.drop i)) then
        (String.mk (cl.take i), String.mk (cl.drop (i + 1)))
      else (hostPort, "")
    | none => (hostPort, "")
  if strStarts hp.1 "[" && strEnds hp.1 "]" then
    (String.mk ((hp.1.data.drop 1).take (hp.1.data.length - 2)), hp.2)
  else hp

/-- Go `URL.Port()`: the port part of the host, `""` when absent. -/
def urlPort (host : String) : String := (splitHostPort host).2

/-- Go `parseHost` validation: a host beginning with `[` must contain `]`
followed by a valid optional port; otherwise anything after the last colon
must be a valid optional port. -/
def checkHost (host : String) : Except String Unit :=
  let cl := host.data
  if strStarts host "[" then
    match lastIdxOf cl ']' with
    | none => .error "missing right bracket in host"
    | some i =>
      if validOptionalPort (String.mk (cl.drop (i + 1))) then .ok ()
      else .error "invalid port after host"
  else
    match lastIdxOf cl ':' with
    | some i =>
      if validOptionalPort (String.mk (cl.drop i)) then .ok ()
      else .error "invalid port after host"
    | none => .ok ()

/-- Go `url.Parse` restricted to the shapes goCrawler produces and consumes:
an optional `#fragment` suffix, an optional `?query` suffix, then either
`http://` or `https://` followed by an authority and path, or (for relative
references) a bare path. -/
def urlParse (raw : String) : Except String URLRec :=
  let fq := cutFirst raw '#'
  let qq := cutFirst fq.1 '?'
  let rest := qq.1
  if strStarts rest "http://" || strStarts rest "https://" then
    let scheme := if strStarts rest "http://" then "http" else "https"
    let after := if strStarts rest "http://" then strDrop rest 7 else strDrop rest 8
    let authority := takeUntil after (· == '/')
    let path := dropUntil after (· == '/')
    match checkHost authority with
    | .error e => .error e
    | .ok _ => .ok ⟨scheme, authority, path, qq.2, fq.2⟩
  else
    .ok ⟨"", "", rest, qq.2, fq.2⟩

/-- Go `URL.String()` for the URLs the crawler builds (scheme always set by
`NormalizeURL`, no user info, no opaque part). -/
def render (u : URLRec) : String :=
  (if u.scheme = "" then "" else u.scheme ++ "://")
    ++ u.host ++ u.path
    ++ (if u.rawQuery = "" then "" else "?" ++ u.rawQuery)
    ++ (if u.fragment = "" then "" else "#" ++ u.fragment)

deriving instance DecidableEq for Except

/-- Did the Go call succeed (`err == nil`)? -/
def exceptIsOk {e a : Type} : Except e a → Bool
  | .ok _ => true
  | .error _ => false

/-- Hex digit for percent-encoding, upper case as Go emits. -/
def hexDigit (n : Nat) : Char :=
  if n < 10 then Char.ofNat ('0'.toNat + n) else Char.ofNat ('A'.toNat + (n - 10))

/-- Value of a hex digit character, `none` when not a hex digit. -/
def hexVal (c : Char) : Option Nat :=
  if '0' ≤ c ∧ c ≤ '9' then some (c.toNat - '0'.toNat)
  else if 'a' ≤ c ∧ c ≤ 'f' then some (c.toNat - 'a'.toNat + 10)
  else if 'A' ≤ c ∧ c ≤ 'F' then some (c.toNat - 'A'.toNat + 10)
  else none

/-- Is the character left unescaped by Go `url.QueryEscape`? -/
def queryUnreserved (c : Char) : Bool :=
  ('a' ≤ c && c ≤ 'z') || ('A' ≤ c && c ≤ 'Z') || ('0' ≤ c && c ≤ '9')
    || c == '-' || c == '_' || c == '.' || c == '~'

/-- Go `url.QueryEscape`: space becomes `+`, unreserved bytes stay, the rest
percent-encode. -/
def queryEscape (s : String) : String :=
  String.mk (s.data.foldr (fun c acc =>
    if c == ' ' then '+' :: acc
    else if queryUnreserved c then c :: acc
    else '%' :: hexDigit (c.toNat / 16) :: hexDigit (c.toNat % 16) :: acc) [])

/-- Go `url.QueryUnescape` on character lists: `+` becomes space, `%XY`
decodes, a malformed escape is an error (`none`). -/
def queryUnescapeL : List Char → Option (List Char)
  | [] => some []
  | '+' :: rest => (queryUnescapeL rest).map (' ' :: ·)
  | '%' :: a :: b :: rest =>
    match hexVal a, hexVal b with
    | some x, some y => (queryUnescapeL rest).map (Char.ofNat (x * 16 + y) :: ·)
    | _, _ => none
  | '%' :: _ => none
  | c :: rest => (queryUnescapeL rest).map (c :: ·)

def queryUnescape (s : String) : Option String :=
  (queryUnescapeL s.data).map String.mk

/-- Go `url.ParseQuery` as used by `URL.Query()`: split on `&`, cut each item
at its first `=`, unescape key and value; items that fail to unescape are
dropped (`Query()` ignores the error). -/
def parseQuery (raw : String) : List (String × String) :=
  (strSplit raw '&').filterMap (fun item =>
    if item = "" then none
    else
      let kv := cutFirst item '='
      match queryUnescape kv.1, queryUnescape kv.2 with
      | some k, some v => some (k, v)
      | _, _ => none)

/-- Insertion into a string list sorted ascending (Go `Encode` sorts keys). -/
def insertSorted (x : String) : List String → List String
  | [] => [x]
  | y :: ys => if y < x then y :: insertSorted x ys else x :: y :: ys

def sortStrings (l : List String) : List String := l.foldr insertSorted []

/-- Go `url.Values.Encode()`: keys sorted, each key-value pair escaped and
joined with `&`; values of one key keep their order. -/
def encodeQuery (ps : List (String × String)) : String :=
  let keys := sortStrings ((ps.map Prod.fst).eraseDups)
  strJoin (keys.flatMap (fun k =>
    (ps.filter (fun p => p.1 = k)).map (fun p => queryEscape k ++ "=" ++ queryEscape p.2))) "&"

/-- `crawler.NormalizeURL` (src/crawler/crawler.go:224-263): add a default
`https` scheme, append a trailing slash to extension-less paths, strip the
`utm_*` tracking parameters, strip the fragment, and strip the default port
by slicing the host at its first colon. -/
def NormalizeURL (rawURL : String) : Except String String :=
  let raw := if !(strStarts rawURL "http://") && !(strStarts rawURL "https://") then
               "https://" ++ rawURL
             else rawURL
  match urlParse raw with
  | .error e => .error e
  | .ok u0 =>
    let u1 := if !(strHasChar u0.path '.') && !(strEnds u0.path "/") then
                { u0 with path := u0.path ++ "/" }
              else u0
    let removeParams := ["utm_source", "utm_medium", "utm_campaign", "utm_term", "utm_content"]
    let query := (parseQuery u1.rawQuery).filter (fun p => !(removeParams.contains p.1))
    let u2 := { u1 with rawQuery := encodeQuery query }
    let u3 := { u2 with fragment := "" }
    let u4 :=
      if (u3.scheme = "http" && urlPort u3.host = "80")
          || (u3.scheme = "https" && urlPort u3.host = "443") then
        match firstIdxOf u3.host.data ':' with
        | some colonIndex => { u3 with host := strTake u3.host colonIndex }
        | none => u3
      else u3
    .ok (render u4)

/-- The fixed extension blacklist of `crawler.IsURLValid`. -/
def excludedExtensions : List String :=
  [".pdf", ".jpg", ".jpeg", ".png", ".gif", ".svg", ".css", ".js",
   ".zip", ".tar", ".gz", ".rar", ".exe", ".mp3", ".mp4", ".avi",
   ".mov", ".mkv", ".doc", ".docx", ".xls", ".xlsx", ".ppt", ".pptx"]

/-- `crawler.IsURLValid` (src/crawler/crawler.go:266-297): reject empty URLs,
non-http(s) schemes, unparsable URLs, and excluded file extensions. -/
def IsURLValid (rawURL : String) : Bool :=
  if rawURL = "" then false
  else if !(strStarts rawURL "http://") && !(strStarts rawURL "https://") then false
  else
    match urlParse rawURL with
    | .error _ => false
    | .ok u => !(excludedExtensions.any (fun ext => strEnds (strToLower u.path) ext))

/-- The characters of `base` up to and including its last slash, Go
`base[:strings.LastIndex(base, "/")+1]` (empty when there is no slash). -/
def upToLastSlash (base : String) : String :=
  match lastIdxOf base.data '/' with
  | none => ""
  | some i => String.mk (base.data.take (i + 1))

/-- Go `net/url.resolvePath`: merge `ref` onto `base` and remove the dot
segments, the standard RFC 3986 merge. -/
def resolvePath (base ref : String) : String :=
  let full :=
    if ref = "" then base
    else if !(strStarts ref "/") then upToLastSlash base ++ ref
    else ref
  if full = "" then ""
  else
    let src := strSplit full '/'
    let dst := src.foldl (fun d e =>
      if e = "." then d
      else if e = ".." then d.dropLast
      else d ++ [e]) []
    let dst := match src.getLast? with
      | some last => if last = "." || last = ".." then dst ++ [""] else dst
      | none => dst
    let joined := strJoin dst "/"
    "/" ++ (if strStarts joined "/" then strDrop joined 1 else joined)

/-- Go `URL.ResolveReference` for the URL shapes of this crawler (no user
info, no opaque part): an absolute reference keeps its own authority, an
empty path-and-query reference inherits path and query from the base, and a
relative path is merged with `resolvePath`. -/
def resolveReference (u ref : URLRec) : URLRec :=
  let url := ref
  let url := if ref.scheme = "" then { url with scheme := u.scheme } else url
  if ref.scheme ≠ "" || ref.host ≠ "" then
    { url with path := resolvePath ref.path "" }
  else
    let url :=
      if ref.path = "" && ref.rawQuery = "" then
        let url := { url with rawQuery := u.rawQuery }
        if ref.fragment = "" then { url with fragment := u.fragment } else url
      else url
    { url with host := u.host, path := resolvePath u.path ref.path }

/-- `crawler.ResolveURL` (src/crawler/crawler.go:300-318): parse the base,
return the second argument unchanged when it already carries an http(s)
scheme, otherwise resolve it against the base. -/
def ResolveURL (baseURL relativeURL : String) : Except String String :=
  match urlParse baseURL with
  | .error e => .error e
  | .ok base =>
    if strStarts relativeURL "http://" || strStarts relativeURL "https://" then
      .ok relativeURL
    else
      match urlParse relativeURL with
      | .error e => .error e
      | .ok rel => .ok (render (resolveReference base rel))

end GoURL

namespace GoStorage

open GoStr

/-- Decimal digits of a natural number, fuel-driven so it is structural. -/
def natDigits : Nat → Nat → List Char
  | 0, _ => []
  | fuel + 1, n =>
    if n < 10 then [GoURL.hexDigit n]
    else natDigits fuel (n / 10) ++ [GoURL.hexDigit (n % 10)]

/-- Go `strconv.Itoa` / `strconv.FormatInt(_, 10)` for naturals. -/
def natToStr (n : Nat) : String := String.mk (natDigits (n + 1) n)

/-- Go `strconv.FormatInt(_, 10)` on integers. -/
def intToStr (i : Int) : String :=
  if i < 0 then "-" ++ natToStr i.natAbs else natToStr i.natAbs

/-- `crawler.Result` (src/crawler/crawler.go:14-22), fields in declaration
order with their json tags; `time.Time` is carried as its RFC 3339 rendering,
which is exactly what the CSV writer emits for it. -/
structure Result where
  url : String
  title : String
  statusCode : Int
  contentLength : Int
  links : List String
  depth : Int
  timestamp : String
deriving DecidableEq, Repr

/-- The `(field name, json tag)` pairs of `crawler.Result` in declaration
order, as `reflect` enumerates them in `CSVStorage.Save`. -/
def resultFieldTags : List (String × String) :=
  [("URL", "url"), ("Title", "title"), ("StatusCode", "status_code"),
   ("ContentLength", "content_length"), ("Links", "links"), ("Depth", "depth"),
   ("Timestamp", "timestamp")]

/-- The header row `CSVStorage.Save` writes for a non-empty `[]Result`: the
json tag of every struct field (the field name when the tag is empty),
followed by the extra `LinksCount` column (src/unnamed/part_001:57-84). -/
def csvHeaderRow : List String :=
  (resultFieldTags.map (fun f => if f.2 = "" then f.1 else f.2)) ++ ["LinksCount"]

/-- A data row of `CSVStorage.Save` (src/unnamed/part_001:87-143): one cell
per struct field in order; for the `Links` slice the row gets the link count
and the loop continues, so the field contributes a single cell. -/
def csvDataRow (r : Result) : List String :=
  [r.url, r.title, intToStr r.statusCode, intToStr r.contentLength,
   natToStr r.links.length, intToStr r.depth, r.timestamp]

/-- `CSVStorage.Save` on a `[]Result`: for an empty slice only the fixed
header; otherwise the reflected header row followed by one data row per
result. -/
def csvSave (rs : List Result) : List (List String) :=
  if rs.length = 0 then
    [["URL", "Title", "StatusCode", "ContentLength", "Depth", "Timestamp", "LinksCount"]]
  else csvHeaderRow :: rs.map csvDataRow

/-- The dynamic type of the `results interface{}` argument reaching
`JSONStorage.Save`. `Crawler.Start` passes a `[]crawler.Result`
(src/unnamed/part_003:367-377); `[]interface{}` and `[]struct{}` are the two
types `getResultCount` tests for. -/
inductive SaveArg
  | resultSlice (rs : List Result)
  | interfaceSlice (n : Nat)
  | emptyStructSlice (n : Nat)
deriving Repr

/-- `storage.getResultCount` (src/unnamed/part_002:51-64): the type assertion
to `[]interface{}` or `[]struct{}` yields the length; any other dynamic type,
including `[]crawler.Result`, falls through to `return 0`. -/
def getResultCount : SaveArg → Nat
  | .interfaceSlice n => n
  | .emptyStructSlice n => n
  | .resultSlice _ => 0

/-- The number of elements actually inside the argument. -/
def saveArgLen : SaveArg → Nat
  | .resultSlice rs => rs.length
  | .interfaceSlice n => n
  | .emptyStructSlice n => n

/-- The `count` metadata field `JSONStorage.Save` writes
(src/unnamed/part_002:23-48): it is `getResultCount results`. -/
def jsonCountField (arg : SaveArg) : Nat := getResultCount arg

/-- A result with three links, for the CSV sink check. -/
def csvR1 : Result :=
  { url := "https://example.com/", title := "Home", statusCode := 200,
    contentLength := 1234,
    links := ["https://example.com/a/", "https://example.com/b/", "https://example.com/c/"],
    depth := 0, timestamp := "2025-01-01T00:00:00Z" }

/-- A result with no links, for the CSV sink check. -/
def csvR2 : Result :=
  { url := "https://example.com/a/", title := "A", statusCode := 200,
    contentLength := 10, links := [], depth := 1,
    timestamp := "2025-01-01T00:00:01Z" }

end GoStorage

namespace SeedOrder

/-- The three observable actions of `Crawler.Start`'s seeding code. -/
inductive SeedOp
  | incr
  | enqueue
  | markSeen
deriving DecidableEq, Repr

/-- The seeding sequence of `Crawler.Start` (src/unnamed/part_003:347-351):
`incrementPendingJobs()`, then `c.jobs <- job{url: startURL, depth: 0}`,
then `markURLSeen(startURL)`. -/
def startSeedOps : List SeedOp := [SeedOp.incr, SeedOp.enqueue, SeedOp.markSeen]

/-- The counter, queue and seen set touched by the seeding code. -/
structure SeedSt where
  pending : Nat
  queue : List String
  seen : List String
deriving DecidableEq, Repr

def applySeedOp (url : String) (s : SeedSt) : SeedOp → SeedSt
  | SeedOp.incr => { s with pending := s.pending + 1 }
  | SeedOp.enqueue => { s with queue := s.queue ++ [url] }
  | SeedOp.markSeen => { s with seen := s.seen ++ [url] }

/-- Run a sequence of seed operations from the crawler's initial state. -/
def runSeedOps (url : String) (ops : List SeedOp) : SeedSt :=
  ops.foldl (applySeedOp url) ⟨0, [], []⟩

end SeedOrder

namespace SeenRace

/-- Program counter of a worker at the dedup code
(src/unnamed/part_003:425-444): before the `hasURLBeenSeen` call; after it,
holding the returned boolean; after `markURLSeen`; done, recording whether
this worker enqueued the link. -/
inductive WPC
  | beforeCheck
  | checked (r : Bool)
  | marked
  | done (enqueued : Bool)
deriving DecidableEq, Repr

/-- Two workers racing on one canonical URL: the shared seen flag for that
URL (`c.seen[url]`, read and written under `c.mu` in two separate critical
sections, src/unnamed/part_003:457-469), each worker's program counter, and
how many times the URL has been enqueued. -/
structure RaceSt where
  seen : Bool
  w1 : WPC
  w2 : WPC
  enq : Nat
deriving DecidableEq, Repr

/-- Atomic steps of the two workers. `check` is one `hasURLBeenSeen` mutex
section, `mark` one `markURLSeen` mutex section, `send` the channel send;
the mutex is released between check and mark, so steps of the other worker
interleave freely. A worker that read `true` skips the link. -/
inductive RStep : RaceSt → RaceSt → Prop
  | check1 (s : RaceSt) (h : s.w1 = WPC.beforeCheck) :
      RStep s { s with w1 := WPC.checked s.seen }
  | skip1 (s : RaceSt) (h : s.w1 = WPC.checked true) :
      RStep s { s with w1 := WPC.done false }
  | mark1 (s : RaceSt) (h : s.w1 = WPC.checked false) :
      RStep s { s with seen := true, w1 := WPC.marked }
  | send1 (s : RaceSt) (h : s.w1 = WPC.marked) :
      RStep s { s with w1 := WPC.done true, enq := s.enq + 1 }
  | check2 (s : RaceSt) (h : s.w2 = WPC.beforeCheck) :
      RStep s { s with w2 := WPC.checked s.seen }
  | skip2 (s : RaceSt) (h : s.w2 = WPC.checked true) :
      RStep s { s with w2 := WPC.done false }
  | mark2 (s : RaceSt) (h : s.w2 = WPC.checked false) :
      RStep s { s with seen := true, w2 := WPC.marked }
  | send2 (s : RaceSt) (h : s.w2 = WPC.marked) :
      RStep s { s with w2 := WPC.done true, enq := s.enq + 1 }

/-- Reflexive-transitive closure of the race steps. -/
inductive RReach : RaceSt → RaceSt → Prop
  | refl (s : RaceSt) : RReach s s
  | tail {s t u : RaceSt} : RReach s t → RStep t u → RReach s u

/-- Both workers at the dedup code for the same not-yet-seen URL. -/
def raceInit : RaceSt := ⟨false, WPC.beforeCheck, WPC.beforeCheck, 0⟩

/-- Both workers enqueued the URL: it entered the job queue twice. -/
def raceBad : RaceSt := ⟨true, WPC.done true, WPC.done true, 2⟩

end SeenRace

namespace CrawlSys

open GoStr GoURL

/-- `crawler.job` (src/unnamed/part_003:262-265): a URL with its depth. -/
structure Job where
  url : String
  depth : Nat
deriving DecidableEq, Repr

/-- A result as the engine records it: the URL and depth of the processed
job (title, status and links are filled from the fetched page and do not
matter to the engine invariants). -/
structure PageRes where
  url : String
  depth : Nat
deriving DecidableEq, Repr

/-- A job a worker has claimed from the channel and is processing: the job
itself and the extracted links its loop has not yet iterated over. -/
structure Working where
  job : Job
  rem : List String
deriving DecidableEq, Repr

/-- The shared state of the crawl engine: the `pendingJobs` counter, the
`jobs` channel contents, the jobs currently inside worker loops, whether
`close(c.jobs)` has run, the `results` slice, plus instrumentation --
`closeCount` counts executions of `close(c.jobs)`, `zeroCount` counts
transitions of the counter to zero, `created` records every job ever made
and `errLog` the per-page errors logged.

This state is a safety over-approximation: `queue` widens the bounded
buffer of `make(chan job, 1000)` (src/unnamed/part_003:293) to an unbounded
list, so sends never block here.  It is used only for the invariant claims
(depth bound, domain scoping, error handling); it proves nothing about
termination.  The faithful bounded-channel model is `ChSt`/`CStep` below. -/
structure St where
  pending : Int
  queue : List Job
  inFlight : List Working
  closed : Bool
  closeCount : Nat
  zeroCount : Nat
  results : List PageRes
  created : List Job
  errLog : List String
deriving Repr

/-- `incrementPendingJobs` (src/unnamed/part_003:304-309): one mutex-guarded
increment. The `zeroCount` update instruments "the counter became zero". -/
def incrementPendingJobs (s : St) : St :=
  let p := s.pending + 1
  { s with pending := p, zeroCount := if p = 0 then s.zeroCount + 1 else s.zeroCount }

/-- `decrementPendingJobs` (src/unnamed/part_003:312-324): one mutex-guarded
decrement; when the counter is `<= 0` and then exactly `== 0`, the jobs
channel is closed. `closeCount`/`zeroCount` instrument the close and the
zero transition. -/
def decrementPendingJobs (s : St) : St :=
  let p := s.pending - 1
  let s1 : St := { s with pending := p,
                          zeroCount := if p = 0 then s.zeroCount + 1 else s.zeroCount }
  if p ≤ 0 then
    if p = 0 then { s1 with closed := true, closeCount := s1.closeCount + 1 }
    else s1
  else s1

/-- The environment a crawl run is parameterized by: the fetch capability
(`crawlURL`, returning the page's extracted canonical links or an error),
the host of a canonical URL (`url.Parse(link).Host`, `none` when the parse
fails), the effective max depth, the normalized seed and the base domain
derived from it. -/
structure Env where
  fetch : String → Option (List String)
  hostOf : String → Option String
  maxDepth : Nat
  seed : String
  baseDomain : String

/-- The state after `Start` has seeded the first job
(src/unnamed/part_003:347-351): counter incremented from 0 to 1 and the seed
job, at depth 0, in the channel. -/
def initSt (E : Env) : St :=
  { pending := 1, queue := [⟨E.seed, 0⟩], inFlight := [], closed := false,
    closeCount := 0, zeroCount := 0, results := [],
    created := [⟨E.seed, 0⟩], errLog := [] }

/-- One atomic step of the worker pool (src/unnamed/part_003:389-455), at
the granularity of the engine's mutex-guarded operations.

Like `St`, this relation over-approximates for safety proofs only: any
number of jobs may be claimed concurrently (the fixed worker count is
dropped) and `enqueueLink` always succeeds immediately (the 1000-slot
channel bound and its blocking send are dropped).  Every real behavior is
covered, so invariants proved over all its traces hold of the program; its
liveness says nothing about the program, and the bounded model `CStep`
below shows the difference matters.

* `claimOk`: a worker receives a job, `crawlURL` succeeds, the result is
  appended under `c.mu`; the link loop will run over the extracted links
  when `depth < MaxDepth`, otherwise over nothing.
* `claimErr`: a worker receives a job and `crawlURL` fails: the error is
  logged, no result is appended, and `decrementPendingJobs` runs at once.
* `skipLink`: the loop drops a link (already seen, unparsable, or its host
  differs from the base domain). The seen check and mark are two separate
  critical sections, so whether a link is dropped depends on the
  interleaving; the model lets any link be dropped, covering every outcome
  of that race.
* `enqueueLink`: the loop keeps a link whose host equals the base domain
  while `depth < MaxDepth`: `incrementPendingJobs` then the channel send.
* `finishJob`: the loop is done; `decrementPendingJobs` runs for the job. -/
inductive Step (E : Env) : St → St → Prop
  | claimOk (s : St) (j : Job) (rest : List Job) (links : List String)
      (hq : s.queue = j :: rest) (hf : E.fetch j.url = some links) :
      Step E s { s with
        queue := rest,
        inFlight := s.inFlight ++ [⟨j, if j.depth < E.maxDepth then links else []⟩],
        results := s.results ++ [⟨j.url, j.depth⟩] }
  | claimErr (s : St) (j : Job) (rest : List Job)
      (hq : s.queue = j :: rest) (hf : E.fetch j.url = none) :
      Step E s (decrementPendingJobs { s with queue := rest, errLog := s.errLog ++ [j.url] })
  | skipLink (s : St) (j : Job) (link : String) (rem : List String)
      (pre post : List Working)
      (hin : s.inFlight = pre ++ ⟨j, link :: rem⟩ :: post) :
      Step E s { s with inFlight := pre ++ ⟨j, rem⟩ :: post }
  | enqueueLink (s : St) (j : Job) (link : String) (rem : List String)
      (pre post : List Working)
      (hin : s.inFlight = pre ++ ⟨j, link :: rem⟩ :: post)
      (hhost : E.hostOf link = some E.baseDomain) (hd : j.depth < E.maxDepth) :
      Step E s (incrementPendingJobs { s with
        inFlight := pre ++ ⟨j, rem⟩ :: post,
        queue := s.queue ++ [⟨link, j.depth + 1⟩],
        created := s.created ++ [⟨link, j.depth + 1⟩] })
  | finishJob (s : St) (j : Job) (pre post : List Working)
      (hin : s.inFlight = pre ++ ⟨j, []⟩ :: post) :
      Step E s (decrementPendingJobs { s with inFlight := pre ++ post })

/-- States reachable from `t` by worker steps. -/
inductive Reaches (E : Env) : St → St → Prop
  | refl (s : St) : Reaches E s s
  | tail {s t u : St} : Reaches E s t → Step E t u → Reaches E s u

/-- The run is over: the channel is drained and no worker holds a job. -/
def Terminal (s : St) : Prop := s.queue = [] ∧ s.inFlight = []

/-- A job the engine may legally hold: within the depth bound and on the
base domain. -/
def JobOk (E : Env) (j : Job) : Prop :=
  j.depth ≤ E.maxDepth ∧ E.hostOf j.url = some E.baseDomain

/-- The engine invariant: the counter equals queued plus in-flight jobs,
a closed channel means a finished run, close and zero-transition counts
agree and happen at most once, and every job and result respects the depth
bound and the domain restriction. -/
structure Inv (E : Env) (s : St) : Prop where
  pcount : s.pending = (s.queue.length : Int) + s.inFlight.length
  closedEmpty : s.closed = true → s.queue = [] ∧ s.inFlight = []
  closeIff : s.closeCount = if s.closed then 1 else 0
  zeroEq : s.zeroCount = s.closeCount
  queueOk : ∀ j ∈ s.queue, JobOk E j
  flightOk : ∀ w ∈ s.inFlight, JobOk E w.job
  createdOk : ∀ j ∈ s.created, JobOk E j
  resultsOk : ∀ r ∈ s.results, r.depth ≤ E.maxDepth ∧ E.hostOf r.url = some E.baseDomain

/-- A tiny concrete crawl environment used to instantiate the engine
theorems: the seed page links to one same-domain page, every other fetch
fails, and hosts come from the URL parser of this file. -/
def wFetch : String → Option (List String) :=
  fun u => if u = "https://example.com/" then some ["https://example.com/a/"] else none

def wHost : String → Option String :=
  fun u =>
    match GoURL.urlParse u with
    | .ok r => some r.host
    | .error _ => none

def wEnv : Env :=
  { fetch := wFetch, hostOf := wHost, maxDepth := 1,
    seed := "https://example.com/", baseDomain := "example.com" }

/-- The state of `wEnv` after the seed job has been claimed and fetched. -/
def wS1 : St :=
  { pending := 1, queue := [],
    inFlight := [⟨⟨"https://example.com/", 0⟩, ["https://example.com/a/"]⟩],
    closed := false, closeCount := 0, zeroCount := 0,
    results := [⟨"https://example.com/", 0⟩],
    created := [⟨"https://example.com/", 0⟩], errLog := [] }

/-- A state holding one job whose fetch fails, for the error-path theorem. -/
def wErrSt : St :=
  { pending := 1, queue := [⟨"https://missing.example/", 1⟩], inFlight := [],
    closed := false, closeCount := 0, zeroCount := 0, results := [],
    created := [⟨"https://missing.example/", 1⟩], errLog := [] }

/-- Capacity of the jobs channel: `make(chan job, 1000)`
(src/unnamed/part_003:293). -/
def chanCap : Nat := 1000

/-- Position of the single worker of a `NumWorkers = 1` run inside its loop
(src/unnamed/part_003:389-455): at the top of the for/select (`loopTop`);
processing a job with the listed links still to iterate (`working`); past
`markURLSeen` and `incrementPendingJobs` for one discovered link, inside
the `select` that sends the new job (`sendWait`); returned after the
channel closed (`exited`). -/
inductive WPhase
  | loopTop
  | working (j : Job) (rem : List String)
  | sendWait (j : Job) (nj : Job) (rem : List String)
  | exited
deriving DecidableEq, Repr

/-- The engine state with the jobs channel modelled faithfully as the
bounded buffer of `make(chan job, 1000)`: a send into a full buffer cannot
proceed until a receive frees a slot, and in a single-worker run the only
receiver is the worker itself.  `seen` is the seen set (one worker, so its
two critical sections cannot interleave with another worker's). -/
structure ChSt where
  pending : Int
  queue : List Job
  seen : List String
  worker : WPhase
  closed : Bool
  closeCount : Nat
  zeroCount : Nat
  results : List PageRes
  errLog : List String
deriving Repr

/-- `incrementPendingJobs` (src/unnamed/part_003:304-309) on the
bounded-channel state. -/
def chIncr (s : ChSt) : ChSt :=
  let p := s.pending + 1
  { s with pending := p, zeroCount := if p = 0 then s.zeroCount + 1 else s.zeroCount }

/-- `decrementPendingJobs` (src/unnamed/part_003:312-324) on the
bounded-channel state. -/
def chDecr (s : ChSt) : ChSt :=
  let p := s.pending - 1
  let s1 : ChSt := { s with pending := p,
                            zeroCount := if p = 0 then s.zeroCount + 1 else s.zeroCount }
  if p ≤ 0 then
    if p = 0 then { s1 with closed := true, closeCount := s1.closeCount + 1 }
    else s1
  else s1

/-- One atomic step of a `NumWorkers = 1` run with the bounded channel.
The rate-limiter tick always arrives (time passes), so it is not a blocking
point, and `ctx` is never cancelled in the runs this relation describes.

* `receiveOk`/`receiveErr`: the worker, at the loop top, receives a job
  from the non-empty buffer; `crawlURL` succeeds (result appended, links
  kept when `depth < MaxDepth`) or fails (logged, counter decremented).
* `skipLink`: the next link is already seen, or unparsable/off-domain.
* `sendStart`: the next link is unseen, on the base domain and within the
  depth bound: `markURLSeen`, `incrementPendingJobs`, and the worker enters
  the `select` that sends the new job (src/unnamed/part_003:431-442).
* `sendDone`: the buffer has room, so the send completes.  When the buffer
  holds `chanCap` jobs there is no such step: the only receiver is this
  same worker, so the `select` blocks forever.
* `finishJob`: the link loop is done; `decrementPendingJobs` runs.
* `exitClosed`: the channel is closed and drained; the worker returns. -/
inductive CStep (E : Env) : ChSt → ChSt → Prop
  | receiveOk (s : ChSt) (j : Job) (rest : List Job) (links : List String)
      (hw : s.worker = WPhase.loopTop) (hq : s.queue = j :: rest)
      (hf : E.fetch j.url = some links) :
      CStep E s { s with
        queue := rest,
        worker := WPhase.working j (if j.depth < E.maxDepth then links else []),
        results := s.results ++ [⟨j.url, j.depth⟩] }
  | receiveErr (s : ChSt) (j : Job) (rest : List Job)
      (hw : s.worker = WPhase.loopTop) (hq : s.queue = j :: rest)
      (hf : E.fetch j.url = none) :
      CStep E s (chDecr { s with queue := rest, errLog := s.errLog ++ [j.url] })
  | skipLink (s : ChSt) (j : Job) (link : String) (rem : List String)
      (hw : s.worker = WPhase.working j (link :: rem))
      (hskip : link ∈ s.seen ∨ E.hostOf link ≠ some E.baseDomain) :
      CStep E s { s with worker := WPhase.working j rem }
  | sendStart (s : ChSt) (j : Job) (link : String) (rem : List String)
      (hw : s.worker = WPhase.working j (link :: rem))
      (hseen : link ∉ s.seen) (hhost : E.hostOf link = some E.baseDomain)
      (hd : j.depth < E.maxDepth) :
      CStep E s (chIncr { s with
        seen := s.seen ++ [link],
        worker := WPhase.sendWait j ⟨link, j.depth + 1⟩ rem })
  | sendDone (s : ChSt) (j nj : Job) (rem : List String)
      (hw : s.worker = WPhase.sendWait j nj rem)
      (hroom : s.queue.length < chanCap) :
      CStep E s { s with queue := s.queue ++ [nj], worker := WPhase.working j rem }
  | finishJob (s : ChSt) (j : Job)
      (hw : s.worker = WPhase.working j []) :
      CStep E s (chDecr { s with worker := WPhase.loopTop })
  | exitClosed (s : ChSt)
      (hw : s.worker = WPhase.loopTop) (hc : s.closed = true) (hq : s.queue = []) :
      CStep E s { s with worker := WPhase.exited }

/-- Reflexive-transitive closure of bounded-channel steps. -/
inductive CReach (E : Env) : ChSt → ChSt → Prop
  | refl (s : ChSt) : CReach E s s
  | tail {s t u : ChSt} : CReach E s t → CStep E t u → CReach E s u

/-- The state after `Start` seeded the first job in a `NumWorkers = 1` run:
counter 1, the seed job buffered, the seed marked seen. -/
def cInit (E : Env) : ChSt :=
  { pending := 1, queue := [⟨E.seed, 0⟩], seen := [E.seed],
    worker := WPhase.loopTop, closed := false, closeCount := 0, zeroCount := 0,
    results := [], errLog := [] }

/-- `https://example.com/p`, the concrete stem of the generated links. -/
def headChars : List Char :=
  ['h','t','t','p','s',':','/','/','e','x','a','m','p','l','e','.','c','o','m','/','p']

/-- The characters of the i-th link of the wide seed page: the stem,
`i` letters `a`, and a slash.  All links are distinct (their lengths
differ) and all live on `example.com`. -/
def linkChars (i : Nat) : List Char := headChars ++ (List.replicate i 'a' ++ ['/'])

/-- The i-th link of the wide seed page. -/
def linkStr (i : Nat) : String := String.mk (linkChars i)

/-- The depth-1 job discovered for the i-th link. -/
def linkJob (i : Nat) : Job := ⟨linkStr i, 1⟩

/-- The links of the wide seed page: two more than the channel capacity. -/
def dlLinks : List String := (List.range' 0 (chanCap + 2)).map linkStr

/-- The link graph of the deadlocking run: the seed page carries
`chanCap + 2` distinct same-domain links; no other URL resolves. -/
def dlFetch : String → Option (List String) :=
  fun u => if u = "https://example.com/" then some dlLinks else none

/-- The deadlocking run: one worker (`-workers 1`), the default max depth 2,
the wide seed page, hosts from the URL parser of this file. -/
def dlEnv : Env :=
  { fetch := dlFetch, hostOf := wHost, maxDepth := 2,
    seed := "https://example.com/", baseDomain := "example.com" }

/-- The engine state after the worker claimed the seed job and completed
the sends for the first `k` discovered links. -/
def dlFill (k : Nat) : ChSt :=
  { pending := 1 + (k : Int),
    queue := (List.range' 0 k).map linkJob,
    seen := "https://example.com/" :: (List.range' 0 k).map linkStr,
    worker := WPhase.working ⟨"https://example.com/", 0⟩
      ((List.range' k (chanCap + 2 - k)).map linkStr),
    closed := false, closeCount := 0, zeroCount := 0,
    results := [⟨"https://example.com/", 0⟩], errLog := [] }

/-- The engine state while the worker, having run `markURLSeen` and
`incrementPendingJobs` for link `k`, sits inside the `select` that sends
job `k` into the channel. -/
def dlWait (k : Nat) : ChSt :=
  { pending := 2 + (k : Int),
    queue := (List.range' 0 k).map linkJob,
    seen := "https://example.com/" :: (List.range' 0 (k + 1)).map linkStr,
    worker := WPhase.sendWait ⟨"https://example.com/", 0⟩ (linkJob k)
      ((List.range' (k + 1) (chanCap + 1 - k)).map linkStr),
    closed := false, closeCount := 0, zeroCount := 0,
    results := [⟨"https://example.com/", 0⟩], errLog := [] }

/-- The deadlock state: the buffer holds `chanCap` jobs, the only worker
sits inside the send `select` for job `chanCap` with one more link still to
go, the counter is positive and the queue was never closed. -/
def dlDead : ChSt := dlWait chanCap

theorem mem_middle {α : Type} (pre post : List α) (x : α) : x ∈ pre ++ x :: post :=
  List.mem_append.mpr (Or.inr (List.mem_cons_self x post))

@[simp] theorem incr_pending (s : St) : (incrementPendingJobs s).pending = s.pending + 1 := rfl

@[simp] theorem incr_queue (s : St) : (incrementPendingJobs s).queue = s.queue := rfl

@[simp] theorem incr_inFlight (s : St) : (incrementPendingJobs s).inFlight = s.inFlight := rfl

@[simp] theorem incr_closed (s : St) : (incrementPendingJobs s).closed = s.closed := rfl

@[simp] theorem incr_closeCount (s : St) : (incrementPendingJobs s).closeCount = s.closeCount := rfl

@[simp] theorem incr_results (s : St) : (incrementPendingJobs s).results = s.results := rfl

@[simp] theorem incr_created (s : St) : (incrementPendingJobs s).created = s.created := rfl

@[simp] theorem incr_errLog (s : St) : (incrementPendingJobs s).errLog = s.errLog := rfl

@[simp] theorem incr_zeroCount (s : St) :
    (incrementPendingJobs s).zeroCount =
      if s.pending + 1 = 0 then s.zeroCount + 1 else s.zeroCount := rfl

@[simp] theorem decr_pending (s : St) : (decrementPendingJobs s).pending = s.pending - 1 := by
  unfold decrementPendingJobs
  dsimp only
  split
  · split <;> rfl
  · rfl

@[simp] theorem decr_queue (s : St) : (decrementPendingJobs s).queue = s.queue := by
  unfold decrementPendingJobs
  dsimp only
  split
  · split <;> rfl
  · rfl

@[simp] theorem decr_inFlight (s : St) : (decrementPendingJobs s).inFlight = s.inFlight := by
  unfold decrementPendingJobs
  dsimp only
  split
  · split <;> rfl
  · rfl

@[simp] theorem decr_results (s : St) : (decrementPendingJobs s).results = s.results := by
  unfold decrementPendingJobs
  dsimp only
  split
  · split <;> rfl
  · rfl

@[simp] theorem decr_created (s : St) : (decrementPendingJobs s).created = s.created := by
  unfold decrementPendingJobs
  dsimp only
  split
  · split <;> rfl
  · rfl

@[simp] theorem decr_errLog (s : St) : (decrementPendingJobs s).errLog = s.errLog := by
  unfold decrementPendingJobs
  dsimp only
  split
  · split <;> rfl
  · rfl

@[simp] theorem decr_closed (s : St) :
    (decrementPendingJobs s).closed = if s.pending - 1 = 0 then true else s.closed := by
  unfold decrementPendingJobs
  dsimp only
  split
  · split
    · next h => simp [h]
    · next h => simp [h]
  · next h =>
    have hne : ¬(s.pending - 1 = 0) := by omega
    simp [hne]

@[simp] theorem decr_closeCount (s : St) :
    (decrementPendingJobs s).closeCount =
      if s.pending - 1 = 0 then s.closeCount + 1 else s.closeCount := by
  unfold decrementPendingJobs
  dsimp only
  split
  · split
    · next h => simp [h]
    · next h => simp [h]
  · next h =>
    have hne : ¬(s.pending - 1 = 0) := by omega
    simp [hne]

@[simp] theorem decr_zeroCount (s : St) :
    (decrementPendingJobs s).zeroCount =
      if s.pending - 1 = 0 then s.zeroCount + 1 else s.zeroCount := by
  unfold decrementPendingJobs
  dsimp only
  split
  · split <;> rfl
  · rfl

/-- Every worker step preserves the engine invariant. -/
theorem inv_step {E : Env} {s t : St} (hI : Inv E s) (hs : Step E s t) : Inv E t := by
  obtain ⟨hp, hce, hci, hz, hqOk, hfOk, hcOk, hrOk⟩ := hI
  cases hs with
  | claimOk j rest links hq hf =>
    have hjOk : JobOk E j := hqOk j (by rw [hq]; exact List.mem_cons_self _ _)
    have hlen : s.queue.length = rest.length + 1 := by rw [hq]; rfl
    refine ⟨?_, ?_, hci, hz, ?_, ?_, hcOk, ?_⟩
    · dsimp only
      rw [hlen] at hp
      simp only [List.length_append, List.length_cons, List.length_nil]
      push_cast at hp ⊢
      omega
    · intro h
      rw [(hce h).1] at hq
      simp at hq
    · intro x hx
      exact hqOk x (by rw [hq]; exact List.mem_cons_of_mem _ hx)
    · intro w hw
      rcases List.mem_append.mp hw with h | h
      · exact hfOk w h
      · simp only [List.mem_singleton] at h
        subst h
        exact hjOk
    · intro r hr
      rcases List.mem_append.mp hr with h | h
      · exact hrOk r h
      · simp only [List.mem_singleton] at h
        subst h
        exact ⟨hjOk.1, hjOk.2⟩
  | claimErr j rest hq hf =>
    have hlen : s.queue.length = rest.length + 1 := by rw [hq]; rfl
    have hclosed : s.closed = false := by
      cases h : s.closed
      · rfl
      · rw [(hce h).1] at hq; simp at hq
    have hp' : s.pending - 1 = (rest.length : Int) + s.inFlight.length := by
      rw [hp, hlen]; push_cast; ring
    refine ⟨?_, ?_, ?_, ?_, ?_, ?_, ?_, ?_⟩ <;> simp only [decr_pending, decr_queue,
      decr_inFlight, decr_results, decr_created, decr_errLog, decr_closed,
      decr_closeCount, decr_zeroCount]
    · exact hp'
    · intro h
      split at h
      · next h0 =>
        rw [hp'] at h0
        constructor
        · exact List.length_eq_zero.mp (by omega)
        · exact List.length_eq_zero.mp (by omega)
      · next h0 =>
        rw [hclosed] at h
        cases h
    · split
      · next h0 =>
        rw [hclosed] at hci
        simp at hci
        rw [hci]
        rw [hp'] at h0
        have hq0 : rest = [] := List.length_eq_zero.mp (by omega)
        have hf0 : s.inFlight = [] := List.length_eq_zero.mp (by omega)
        simp [hp', hq0, hf0]
      · next h0 =>
        rw [hclosed] at hci ⊢
        simpa using hci
    · split <;> omega
    · intro x hx
      exact hqOk x (by rw [hq]; exact List.mem_cons_of_mem _ hx)
    · exact hfOk
    · exact hcOk
    · exact hrOk
  | skipLink j link rem pre post hin =>
    have hlen : s.inFlight.length = pre.length + post.length + 1 := by
      rw [hin]; simp only [List.length_append, List.length_cons]; omega
    refine ⟨?_, ?_, hci, hz, hqOk, ?_, hcOk, hrOk⟩
    · dsimp only
      rw [hlen] at hp
      simp only [List.length_append, List.length_cons]
      push_cast at hp ⊢
      omega
    · intro h
      rw [(hce h).2] at hin
      simp at hin
    · intro w hw
      rcases List.mem_append.mp hw with h | h
      · exact hfOk w (by rw [hin]; exact List.mem_append.mpr (Or.inl h))
      · rcases List.mem_cons.mp h with h | h
        · subst h
          exact hfOk ⟨j, link :: rem⟩ (by rw [hin]; exact mem_middle _ _ _)
        · exact hfOk w (by rw [hin]; exact List.mem_append.mpr (Or.inr (List.mem_cons_of_mem _ h)))
  | enqueueLink j link rem pre post hin hhost hd =>
    have hlen : s.inFlight.length = pre.length + post.length + 1 := by
      rw [hin]; simp only [List.length_append, List.length_cons]; omega
    have hjOk : JobOk E j := hfOk ⟨j, link :: rem⟩ (by rw [hin]; exact mem_middle _ _ _)
    have hpend0 : (0 : Int) ≤ s.pending := by rw [hp]; positivity
    have hne : ¬(s.pending + 1 = 0) := by omega
    refine ⟨?_, ?_, ?_, ?_, ?_, ?_, ?_, ?_⟩ <;> simp only [incr_pending, incr_queue,
      incr_inFlight, incr_closed, incr_closeCount, incr_zeroCount, incr_results,
      incr_created, incr_errLog]
    · rw [hlen] at hp
      simp only [List.length_append, List.length_cons, List.length_nil]
      push_cast at hp ⊢
      omega
    · intro h
      rw [(hce h).2] at hin
      simp at hin
    · exact hci
    · simp only [if_neg hne]
      exact hz
    · intro x hx
      rcases List.mem_append.mp hx with h | h
      · exact hqOk x h
      · simp only [List.mem_singleton] at h
        subst h
        exact ⟨hd, hhost⟩
    · intro w hw
      rcases List.mem_append.mp hw with h | h
      · exact hfOk w (by rw [hin]; exact List.mem_append.mpr (Or.inl h))
      · rcases List.mem_cons.mp h with h | h
        · subst h
          exact hjOk
        · exact hfOk w (by rw [hin]; exact List.mem_append.mpr (Or.inr (List.mem_cons_of_mem _ h)))
    · intro x hx
      rcases List.mem_append.mp hx with h | h
      · exact hcOk x h
      · simp only [List.mem_singleton] at h
        subst h
        exact ⟨hd, hhost⟩
    · exact hrOk
  | finishJob j pre post hin =>
    have hlen : s.inFlight.length = pre.length + post.length + 1 := by
      rw [hin]; simp only [List.length_append, List.length_cons]; omega
    have hclosed : s.closed = false := by
      cases h : s.closed
      · rfl
      · rw [(hce h).2] at hin; simp at hin
    have hp' : s.pending - 1 = (s.queue.length : Int) + (pre.length + post.length) := by
      rw [hp, hlen]; push_cast; ring
    refine ⟨?_, ?_, ?_, ?_, ?_, ?_, ?_, ?_⟩ <;> simp only [decr_pending, decr_queue,
      decr_inFlight, decr_results, decr_created, decr_errLog, decr_closed,
      decr_closeCount, decr_zeroCount]
    · rw [hp']
      simp only [List.length_append]
      push_cast
      ring
    · intro h
      split at h
      · next h0 =>
        rw [hp'] at h0
        constructor
        · exact List.length_eq_zero.mp (by omega)
        · have : pre.length + post.length = 0 := by omega
          simp only [List.append_eq_nil]
          constructor
          · exact List.length_eq_zero.mp (by omega)
          · exact List.length_eq_zero.mp (by omega)
      · next h0 =>
        rw [hclosed] at h
        cases h
    · split
      · next h0 =>
        rw [hclosed] at hci
        simp at hci
        simp [hci]
      · next h0 =>
        rw [hclosed] at hci ⊢
        simpa using hci
    · split <;> omega
    · exact hqOk
    · intro w hw
      rcases List.mem_append.mp hw with h | h
      · exact hfOk w (by rw [hin]; exact List.mem_append.mpr (Or.inl h))
      · exact hfOk w (by rw [hin]; exact List.mem_append.mpr (Or.inr (List.mem_cons_of_mem _ h)))
    · exact hcOk
    · exact hrOk

/-- The state `Start` seeds satisfies the invariant. -/
theorem init_inv {E : Env} (hseed : E.hostOf E.seed = some E.baseDomain) :
    Inv E (initSt E) := by
  refine ⟨?_, ?_, ?_, ?_, ?_, ?_, ?_, ?_⟩ <;>
    simp [initSt, JobOk, hseed]

/-- Every state reachable from the seeded state satisfies the invariant. -/
theorem reaches_inv {E : Env} (hseed : E.hostOf E.seed = some E.baseDomain)
    {s : St} (hr : Reaches E (initSt E) s) : Inv E s := by
  induction hr with
  | refl => exact init_inv hseed
  | tail _ hs ih => exact inv_step ih hs

/-- No character of a generated link is a hash mark. -/
theorem linkChars_no_hash (i : Nat) : ∀ a ∈ linkChars i, (a == '#') = false := by
  intro a ha
  simp only [linkChars, List.mem_append, List.mem_replicate, List.mem_singleton] at ha
  rcases ha with h | ⟨_, rfl⟩ | rfl
  · exact (by decide : ∀ x ∈ headChars, (x == '#') = false) a h
  · rfl
  · rfl

theorem linkChars_no_quest (i : Nat) : ∀ a ∈ linkChars i, (a == '?') = false := by
  intro a ha
  simp only [linkChars, List.mem_append, List.mem_replicate, List.mem_singleton] at ha
  rcases ha with h | ⟨_, rfl⟩ | rfl
  · exact (by decide : ∀ x ∈ headChars, (x == '?') = false) a h
  · rfl
  · rfl

theorem cutFirst_linkStr_hash (i : Nat) : cutFirst (linkStr i) '#' = (linkStr i, "") := by
  unfold cutFirst
  rw [show firstIdxOf (linkStr i).data '#' = none from
    List.findIdx?_eq_none_iff.mpr (linkChars_no_hash i)]

theorem cutFirst_linkStr_quest (i : Nat) : cutFirst (linkStr i) '?' = (linkStr i, "") := by
  unfold cutFirst
  rw [show firstIdxOf (linkStr i).data '?' = none from
    List.findIdx?_eq_none_iff.mpr (linkChars_no_quest i)]

theorem urlParse_linkStr (i : Nat) :
    urlParse (linkStr i) =
      Except.ok ⟨"https", "example.com",
        String.mk ('/' :: 'p' :: (List.replicate i 'a' ++ ['/'])), "", ""⟩ := by
  unfold urlParse
  rw [cutFirst_linkStr_hash]
  dsimp only
  rw [cutFirst_linkStr_quest]
  rfl

theorem wHost_linkStr (i : Nat) : wHost (linkStr i) = some "example.com" := by
  unfold wHost
  rw [urlParse_linkStr]

theorem linkChars_length (i : Nat) : (linkChars i).length = 22 + i := by
  simp [linkChars, headChars]
  omega

theorem linkStr_injective {i j : Nat} (h : linkStr i = linkStr j) : i = j := by
  have h2 : linkChars i = linkChars j := congrArg String.data h
  have h3 := congrArg List.length h2
  rw [linkChars_length, linkChars_length] at h3
  omega

theorem linkStr_ne_seed (i : Nat) : linkStr i ≠ "https://example.com/" := by
  intro h
  have h2 : linkChars i = "https://example.com/".data := congrArg String.data h
  have h3 := congrArg List.length h2
  rw [linkChars_length] at h3
  have h4 : ("https://example.com/".data).length = 20 := rfl
  omega

theorem linkStr_fresh (k : Nat) :
    linkStr k ∉ "https://example.com/" :: (List.range' 0 k).map linkStr := by
  intro h
  rcases List.mem_cons.mp h with h | h
  · exact linkStr_ne_seed k h
  · rcases List.mem_map.mp h with ⟨j, hj, hje⟩
    have hjk : j = k := linkStr_injective hje
    have := List.mem_range'_1.mp hj
    omega

theorem creach_trans {E : Env} {a b c : ChSt} (h1 : CReach E a b) (h2 : CReach E b c) :
    CReach E a c := by
  induction h2 with
  | refl => exact h1
  | tail _ hs ih => exact CReach.tail ih hs

theorem dl_wait_step (k : Nat) (hk : k ≤ chanCap + 1) :
    CStep dlEnv (dlFill k) (dlWait k) := by
  have hwA : (dlFill k).worker = WPhase.working ⟨"https://example.com/", 0⟩
      (linkStr k :: (List.range' (k + 1) (chanCap + 1 - k)).map linkStr) := by
    show WPhase.working _ ((List.range' k (chanCap + 2 - k)).map linkStr) = _
    rw [show chanCap + 2 - k = (chanCap + 1 - k) + 1 from by omega, List.range'_succ,
      List.map_cons]
  have stepA := CStep.sendStart (E := dlEnv) (dlFill k) ⟨"https://example.com/", 0⟩
    (linkStr k) ((List.range' (k + 1) (chanCap + 1 - k)).map linkStr)
    hwA (linkStr_fresh k) (wHost_linkStr k) (by decide)
  have heq : (chIncr { dlFill k with
      seen := (dlFill k).seen ++ [linkStr k],
      worker := WPhase.sendWait ⟨"https://example.com/", 0⟩ ⟨linkStr k, 0 + 1⟩
        ((List.range' (k + 1) (chanCap + 1 - k)).map linkStr) }) = dlWait k := by
    simp only [chIncr, dlFill, dlWait, ChSt.mk.injEq]
    refine ⟨by omega, trivial, ?_, rfl, trivial, trivial, ?_, trivial, trivial⟩
    · rw [List.range'_concat]
      simp
    · rw [if_neg (by omega)]
  rw [heq] at stepA
  exact stepA

theorem dl_done_step (k : Nat) (hk : k < chanCap) :
    CStep dlEnv (dlWait k) (dlFill (k + 1)) := by
  have stepB := CStep.sendDone (E := dlEnv) (dlWait k) ⟨"https://example.com/", 0⟩
    (linkJob k) ((List.range' (k + 1) (chanCap + 1 - k)).map linkStr)
    rfl (by simp [dlWait, List.length_map, List.length_range']; omega)
  have heq : ({ dlWait k with
      queue := (dlWait k).queue ++ [linkJob k],
      worker := WPhase.working ⟨"https://example.com/", 0⟩
        ((List.range' (k + 1) (chanCap + 1 - k)).map linkStr) } : ChSt) = dlFill (k + 1) := by
    simp only [dlWait, dlFill, ChSt.mk.injEq]
    refine ⟨by omega, ?_, trivial, ?_, trivial, trivial, trivial, trivial, trivial⟩
    · rw [List.range'_concat]
      simp
    · rw [show chanCap + 2 - (k + 1) = chanCap + 1 - k from by omega]
  rw [heq] at stepB
  exact stepB

theorem dl_fill_reach : ∀ k, k ≤ chanCap → CReach dlEnv (cInit dlEnv) (dlFill k) := by
  intro k
  induction k with
  | zero =>
    intro _
    refine CReach.tail (CReach.refl _) ?_
    exact CStep.receiveOk (cInit dlEnv) ⟨"https://example.com/", 0⟩ [] dlLinks rfl rfl rfl
  | succ k ih =>
    intro hk
    exact creach_trans (ih (by omega))
      (CReach.tail (CReach.tail (CReach.refl _) (dl_wait_step k (by omega)))
        (dl_done_step k (by omega)))

theorem dlDead_no_step : ∀ t, ¬ CStep dlEnv dlDead t := by
  intro t h
  cases h with
  | receiveOk j rest links hw hq hf => simp [dlDead, dlWait] at hw
  | receiveErr j rest hw hq hf => simp [dlDead, dlWait] at hw
  | skipLink j link rem hw hskip => simp [dlDead, dlWait] at hw
  | sendStart j link rem hw hseen hhost hd => simp [dlDead, dlWait] at hw
  | sendDone j nj rem hw hroom =>
    simp [dlDead, dlWait, List.length_map, List.length_range'] at hroom
  | finishJob j hw => simp [dlDead, dlWait] at hw
  | exitClosed hw hc hq => simp [dlDead, dlWait] at hw

theorem dlDead_reach : CReach dlEnv (cInit dlEnv) dlDead :=
  CReach.tail (dl_fill_reach chanCap le_rfl) (dl_wait_step chanCap (by omega))

end CrawlSys

section Claims

open GoStr GoURL GoStorage SeedOrder SeenRace CrawlSys

/-- Claim C1: the spec asserts the queue is closed exactly once, when and
only when the pending counter transitions to zero, and that every crawl of
a finite link graph bounded by max depth terminates with the counter
reaching exactly zero exactly once.  The code violates the termination
part: in a `NumWorkers = 1` run whose seed page carries `chanCap + 2`
distinct same-domain links, the worker fills the 1000-slot jobs channel
(`make(chan job, 1000)`) and then waits forever inside the send `select` --
the state `dlDead` is reachable, admits no further step, and in it the
queue was never closed, the counter never transitioned to zero, and
`pendingJobs` is still positive: the crawl neither terminates nor reaches
zero on this finite depth-bounded graph. -/
theorem claim_crawl_deadlock :
    CReach dlEnv (cInit dlEnv) dlDead ∧
    (∀ t, ¬ CStep dlEnv dlDead t) ∧
    dlDead.closed = false ∧ dlDead.closeCount = 0 ∧ dlDead.zeroCount = 0 ∧
    dlDead.queue.length = chanCap ∧ (0 : Int) < dlDead.pending := by
  refine ⟨dlDead_reach, dlDead_no_step, rfl, rfl, rfl, ?_, ?_⟩
  · simp [dlDead, dlWait, List.length_map, List.length_range']
  · show (0 : Int) < 2 + (chanCap : Int)
    positivity

/-- Claim C2 is false of the code: `hasURLBeenSeen` and `markURLSeen` are
two separate critical sections, and in the interleaving where both workers
check before either marks, both mark and both enqueue -- the same canonical
URL enters the job queue twice. -/
theorem claim_seen_race_double_enqueue :
    RReach raceInit raceBad ∧ raceBad.enq = 2 := by
  constructor
  · exact RReach.tail (RReach.tail (RReach.tail (RReach.tail (RReach.tail
      (RReach.tail (RReach.refl raceInit)
        (RStep.check1 _ rfl)) (RStep.check2 _ rfl))
        (RStep.mark1 _ rfl)) (RStep.send1 _ rfl))
        (RStep.mark2 _ rfl)) (RStep.send2 _ rfl)
  · rfl

/-- Claim C3: every job ever created (seed or discovered) and every result
appended by the engine respects the effective maximum depth. -/
theorem claim_depth_bound (E : Env)
    (hseed : E.hostOf E.seed = some E.baseDomain)
    (s : St) (hr : Reaches E (initSt E) s) :
    (∀ j ∈ s.created, j.depth ≤ E.maxDepth) ∧
    (∀ r ∈ s.results, r.depth ≤ E.maxDepth) := by
  obtain ⟨_, _, _, _, _, _, hcOk, hrOk⟩ := reaches_inv hseed hr
  exact ⟨fun j hj => (hcOk j hj).1, fun r hrm => (hrOk r hrm).1⟩

/-- Witness for C3 at the seeded state of `wEnv`. -/
theorem claim_depth_bound_wit :
    (∀ j ∈ (initSt wEnv).created, j.depth ≤ wEnv.maxDepth) ∧
    (∀ r ∈ (initSt wEnv).results, r.depth ≤ wEnv.maxDepth) :=
  claim_depth_bound wEnv (by decide) (initSt wEnv) (Reaches.refl _)

/-- Claim C4: every result the engine records has a URL whose host equals
the base domain derived from the normalized seed URL. -/
theorem claim_domain_scoping (E : Env)
    (hseed : E.hostOf E.seed = some E.baseDomain)
    (s : St) (hr : Reaches E (initSt E) s) :
    ∀ r ∈ s.results, E.hostOf r.url = some E.baseDomain := by
  obtain ⟨_, _, _, _, _, _, _, hrOk⟩ := reaches_inv hseed hr
  exact fun r hrm => (hrOk r hrm).2

/-- Witness for C4 at a state of `wEnv` with a recorded result. -/
theorem claim_domain_scoping_wit :
    wEnv.hostOf "https://example.com/" = some "example.com" :=
  claim_domain_scoping wEnv (by decide) wS1
    (Reaches.tail (Reaches.refl _)
      (Step.claimOk (initSt wEnv) ⟨"https://example.com/", 0⟩ []
        ["https://example.com/a/"] rfl (by decide)))
    ⟨"https://example.com/", 0⟩ (by decide)

/-- Claim C5 is false of the code: `http://[::1]:80/` is valid and
normalizes (the first-colon port strip corrupts the bracketed host to `[`),
but normalizing the output fails to parse, so normalize of normalize is not
normalize. -/
theorem claim_normalize_not_idempotent :
    IsURLValid "http://[::1]:80/" = true ∧
    NormalizeURL "http://[::1]:80/" = Except.ok "http://[/" ∧
    exceptIsOk (NormalizeURL "http://[/") = false := by decide

/-- Claim C6 is false as stated: with a base URL that `url.Parse` rejects,
`ResolveURL` fails even though the second argument is absolute, because the
base is parsed before the absolute check. -/
theorem claim_resolve_counterexample :
    exceptIsOk (ResolveURL "http://[x" "https://example.com/") = false ∧
    strStarts "https://example.com/" "https://" = true := by decide

/-- Claim C6 amended: for every base URL that `url.Parse` accepts,
`ResolveURL` returns an absolute second argument unchanged without error,
and resolves a parsable relative second argument against the base per the
standard resolution algorithm. -/
theorem claim_resolve_amended (b r : String) (u : URLRec)
    (hb : urlParse b = Except.ok u) :
    ((strStarts r "http://" || strStarts r "https://") = true →
        ResolveURL b r = Except.ok r) ∧
    ((strStarts r "http://" || strStarts r "https://") = false →
      ∀ rl, urlParse r = Except.ok rl →
        ResolveURL b r = Except.ok (render (resolveReference u rl))) := by
  constructor
  · intro habs
    unfold ResolveURL
    rw [hb, habs]
    simp
  · intro habs rl hrl
    unfold ResolveURL
    rw [hb, habs, hrl]
    simp

/-- Witness for the amended C6. -/
theorem claim_resolve_amended_wit :
    ResolveURL "https://example.com/x/y" "https://other.com/p" =
      Except.ok "https://other.com/p" :=
  (claim_resolve_amended "https://example.com/x/y" "https://other.com/p"
      ⟨"https", "example.com", "/x/y", "", ""⟩ (by decide)).1 (by decide)

/-- Claim C7: when the fetch of a claimed job fails, the worker takes a step
that logs the URL, decrements the pending counter exactly once, appends no
result, leaves the other in-flight jobs untouched, creates no job, and the
loop goes on with the rest of the queue. -/
theorem claim_per_page_error (E : Env) (s : St) (j : Job) (rest : List Job)
    (hq : s.queue = j :: rest) (hf : E.fetch j.url = none) :
    ∃ t, Step E s t ∧ t.results = s.results ∧ t.pending = s.pending - 1 ∧
      t.inFlight = s.inFlight ∧ t.queue = rest ∧
      t.errLog = s.errLog ++ [j.url] ∧ t.created = s.created := by
  refine ⟨_, Step.claimErr s j rest hq hf, ?_, ?_, ?_, ?_, ?_, ?_⟩ <;> simp

/-- Witness for C7 at a concrete failing job. -/
theorem claim_per_page_error_wit :
    ∃ t, Step wEnv wErrSt t ∧ t.results = wErrSt.results ∧
      t.pending = wErrSt.pending - 1 ∧ t.inFlight = wErrSt.inFlight ∧
      t.queue = [] ∧
      t.errLog = wErrSt.errLog ++ ["https://missing.example/"] ∧
      t.created = wErrSt.created :=
  claim_per_page_error wEnv wErrSt ⟨"https://missing.example/", 1⟩ [] rfl (by decide)

/-- Claim C8 is false as stated: after the first two seeding operations of
`Start` the seed job is already in the queue while the seen set is still
empty -- `Start` enqueues before marking the seed seen, and its operation
sequence is not increment-mark-enqueue. -/
theorem claim_seed_order_counterexample :
    (runSeedOps "https://example.com/" (startSeedOps.take 2)).queue =
      ["https://example.com/"] ∧
    (runSeedOps "https://example.com/" (startSeedOps.take 2)).seen = [] ∧
    startSeedOps ≠ [SeedOp.incr, SeedOp.markSeen, SeedOp.enqueue] := by decide

/-- Claim C8 amended: `Start` seeds the first job by incrementing the
pending counter first, then enqueuing the seed job, and only then marking
the seed URL as seen. -/
theorem claim_seed_order_amended (url : String) :
    startSeedOps = [SeedOp.incr, SeedOp.enqueue, SeedOp.markSeen] ∧
    runSeedOps url startSeedOps = ⟨1, [url], [url]⟩ ∧
    (runSeedOps url (startSeedOps.take 2)).seen = [] := by
  refine ⟨rfl, ?_, rfl⟩
  simp [runSeedOps, startSeedOps, applySeedOp]

/-- Claim C9 is false of the code: on two results with 3 and 0 links the CSV
sink does emit a header row plus two data rows, but the header has 8 columns
(both `links` and `LinksCount`) while each data row has 7 cells, so the link
counts `3` and `0` sit under the `links` header and the column headed
`LinksCount` has no data at all. -/
theorem claim_csv_linkscount_column :
    csvSave [csvR1, csvR2] = [csvHeaderRow, csvDataRow csvR1, csvDataRow csvR2] ∧
    (csvSave [csvR1, csvR2]).length = 3 ∧
    csvHeaderRow.length = 8 ∧
    (csvDataRow csvR1).length = 7 ∧
    csvHeaderRow[7]? = some "LinksCount" ∧
    (csvDataRow csvR1)[7]? = none ∧
    csvHeaderRow[4]? = some "links" ∧
    (csvDataRow csvR1)[4]? = some "3" ∧
    (csvDataRow csvR2)[4]? = some "0" := by decide

/-- Claim C10: `getResultCount` returns 0 on the `[]crawler.Result` slice the
Coordinator passes, so the `count` field written by the JSON sink equals the
number of results exactly when that number is 0. -/
theorem claim_json_count_zero (rs : List GoStorage.Result) :
    getResultCount (SaveArg.resultSlice rs) = 0 ∧
    jsonCountField (SaveArg.resultSlice rs) = 0 ∧
    (jsonCountField (SaveArg.resultSlice rs) = saveArgLen (SaveArg.resultSlice rs) ↔
      rs = []) := by
  refine ⟨rfl, rfl, ?_⟩
  simp [jsonCountField, getResultCount, saveArgLen, eq_comm, List.length_eq_zero]

end Claims
